import Mathlib

/-!
Verification development for tbl-template.py: a script that resolves a list
of database table names (with wildcard patterns) and writes one spreadsheet
sheet per table holding a single header row of column names.

Python strings are embedded as lists of characters.  The database catalog
(the set of table names visible in the configured schema, and the column
names of each table) is embedded as explicit lists; the SQL queries the
script issues against information_schema are embedded by their semantics:
  - SELECT table_name ... ORDER BY table_name         = sort the catalog
  - table_name ilike pattern                           = case-insensitive
    SQL LIKE match (percent = any run of characters, underscore = any one
    character)
  - table_name = literal                               = exact membership
-/

abbrev Str := List Char

/-- Character list of a string literal (Python str values). -/
def chars (s : String) : Str := s.data

/-- Python str.strip whitespace class (ASCII whitespace). -/
def isPySpace (c : Char) : Bool :=
  c = ' ' || c = '\t' || c = '\n' || c = '\r' || c = '\x0b' || c = '\x0c'

/-- Python s.strip(): remove leading and trailing whitespace. -/
def pyStrip (s : Str) : Str :=
  ((s.dropWhile isPySpace).reverse.dropWhile isPySpace).reverse

/-- Python s.split(sep) for a one-character separator: split at every
occurrence, the empty string yields a single empty field. -/
def pySplitOn (sep : Char) : Str → List Str
  | [] => [[]]
  | c :: rest =>
      match pySplitOn sep rest with
      | [] => if c = sep then [[], []] else [[c]]
      | f :: fs => if c = sep then [] :: f :: fs else (c :: f) :: fs

/-- re.search of a literal star in the entry (line 114). -/
def containsStar (s : Str) : Bool := s.contains '*'

/-- Lines 115-116: match_str = tbl.split(Char.ofNat 42); percent.join(match_str). -/
def percentPattern (tbl : Str) : Str :=
  (List.intersperse ['%'] (pySplitOn '*' tbl)).flatten

/-- ASCII lower-casing used for the case-insensitive ilike comparison. -/
def lowerChar (c : Char) : Char :=
  if 'A' ≤ c ∧ c ≤ 'Z' then Char.ofNat (c.toNat + 32) else c

/-- SQL LIKE semantics: percent matches any sequence of characters (so the
rest of the pattern may match any suffix), underscore matches exactly one
character, anything else matches itself; the pattern must cover the whole
string. -/
def likeMatch : Str → Str → Bool
  | [], s => s.isEmpty
  | '%' :: ps, s => (s.tails).any (fun s2 => likeMatch ps s2)
  | '_' :: ps, s => match s with | [] => false | _ :: s2 => likeMatch ps s2
  | p :: ps, s => match s with | [] => false | c :: s2 => (p == c) && likeMatch ps s2

/-- SQL ILIKE: LIKE after lower-casing both sides. -/
def ilike (pat s : Str) : Bool :=
  likeMatch (pat.map lowerChar) (s.map lowerChar)

/-- DatabaseQuery.match_tbl (lines 126-131): all catalog table names that
ILIKE-match the pattern. -/
def match_tbl (catalog : List Str) (pat : Str) : List Str :=
  catalog.filter (fun t => ilike pat t)

/-- DatabaseQuery.verify_tbl (lines 133-141): whether the literal name is a
table of the schema (fetchone of an exact-equality query is non-None). -/
def verify_tbl (catalog : List Str) (t : Str) : Bool :=
  decide (t ∈ catalog)

/-- The for-loop of table_list (lines 113-121): per entry, first extend with
the wildcard matches when the entry contains a star, then append the entry
itself when it verifies as an exact table name. -/
def tableLoop (catalog : List Str) : List Str → List Str
  | [] => []
  | tbl :: rest =>
      (if containsStar tbl then match_tbl catalog (percentPattern tbl) else [])
        ++ (if verify_tbl catalog tbl then [tbl] else [])
        ++ tableLoop catalog rest

/-- DatabaseQuery.table_list (lines 98-124).  tbls = None queries all tables
of the schema ORDER BY table_name; otherwise the request is stripped as a
whole, split on commas, and each entry goes through the loop.  Either way
the final line is sorted(list(set(tbl_list))). -/
def table_list (catalog : List Str) (tbls : Option Str) : List Str :=
  let tbl_list : List Str :=
    match tbls with
    | none => List.insertionSort (· ≤ ·) catalog
    | some s => tableLoop catalog (pySplitOn ',' (pyStrip s))
  List.insertionSort (· ≤ ·) tbl_list.dedup

/-- Lines 92-95 of DatabaseQuery.init: the excluded-column string is
stripped as a whole when present. -/
def initXcols : Option Str → Option Str
  | none => none
  | some x => some (pyStrip x)

/-- DatabaseQuery.column_list (lines 143-152): the catalog columns of the
table in catalog order; when xcols is present, keep a column only if its
name is not among the raw comma-split tokens of xcols. -/
def column_list (xcols : Option Str) (cols : List Str) : List Str :=
  match xcols with
  | none => cols
  | some x => cols.filter (fun c => !((pySplitOn ',' x).contains c))

/-- One spreadsheet cell: odf.table.TableCell(valuetype, stringvalue). -/
structure TableCell where
  valuetype : Str
  stringvalue : Str
deriving DecidableEq

/-- One spreadsheet row: odf.table.TableRow with its child cells. -/
structure TableRow where
  cells : List TableCell
deriving DecidableEq

/-- One sheet: odf.table.Table(name=...) with its child rows. -/
structure Sheet where
  name : Str
  rows : List TableRow
deriving DecidableEq

/-- The spreadsheet document: the sheets added to wkbook.spreadsheet. -/
structure Workbook where
  sheets : List Sheet
deriving DecidableEq

/-- OdsFile.new_sheet (lines 165-166). -/
def new_sheet (sheetname : Str) : Sheet :=
  { name := sheetname, rows := [] }

/-- OdsFile.add_row_to_sheet (lines 168-173): append one row whose cells are
text cells holding the items in order. -/
def add_row_to_sheet (datarow : List Str) (odf_table : Sheet) : Sheet :=
  { odf_table with
      rows := odf_table.rows
        ++ [{ cells := datarow.map
                (fun item => { valuetype := chars "string", stringvalue := item }) }] }

/-- OdsFile.add_sheet (lines 175-176): append the sheet to the document. -/
def add_sheet (wkbook : Workbook) (odf_table : Sheet) : Workbook :=
  { sheets := wkbook.sheets ++ [odf_table] }

/-- The main loop (lines 229-232): one sheet per resolved table, holding a
single row of that table's resolved column names. -/
def buildWorkbook (tblList : List Str) (colsOf : Str → List Str) : Workbook :=
  tblList.foldl
    (fun wkbook tbl => add_sheet wkbook (add_row_to_sheet (colsOf tbl) (new_sheet tbl)))
    { sheets := [] }

/-- The whole document-producing run (lines 217-232): resolve the tables,
then per table write the filtered column names.  colCat gives the catalog
column names of each table in catalog order. -/
def mainDocument (catalog : List Str) (tbls xcols : Option Str)
    (colCat : Str → List Str) : Workbook :=
  buildWorkbook (table_list catalog tbls)
    (fun tbl => column_list (initXcols xcols) (colCat tbl))

/-- State of one Database instance (lines 38-83) together with the world of
connections it has opened: conn is self.conn (a handle or None), live lists
the handles opened and not yet closed, nextId feeds fresh handles. -/
structure DbState where
  password : Option Str
  conn : Option Nat
  live : List Nat
  nextId : Nat
deriving DecidableEq

/-- Database.init (lines 40-46): stores the password argument, sets conn to
None, then reassigns self.password to the value returned by the
get_password prompt (the prompted argument). -/
def Database_init (passwordArg : Option Str) (prompted : Str) : DbState :=
  let s0 : DbState := { password := passwordArg, conn := none, live := [], nextId := 0 }
  { s0 with password := some prompted }

/-- Database.open_db (lines 51-62): first close self.conn if it is not None,
then, if the password is not None, connect and store the fresh handle.
A connect failure raises and aborts the run, leaving no new live handle,
so the success path is the one modelled. -/
def open_db (s : DbState) : DbState :=
  let s1 :=
    match s.conn with
    | some c => { s with live := s.live.erase c }
    | none => s
  match s1.password with
  | some _ =>
      { s1 with
          conn := some s1.nextId
          live := s1.live ++ [s1.nextId]
          nextId := s1.nextId + 1 }
  | none => s1

/-- State effect of Database.cursor (lines 64-67): open_db only when
self.conn is None. -/
def cursorState (s : DbState) : DbState :=
  match s.conn with
  | none => open_db s
  | some _ => s

/-- Database.close (lines 69-72): close the live connection and set
self.conn to None. -/
def closeDb (s : DbState) : DbState :=
  match s.conn with
  | some c => { s with live := s.live.erase c, conn := none }
  | none => s

/-- The state-changing operations a caller can run on one instance;
execute (lines 74-80) touches the state exactly as cursor does. -/
inductive DbOp
  | openDb
  | cursor
  | execute
  | closeOp
deriving DecidableEq

def dbStep (op : DbOp) (s : DbState) : DbState :=
  match op with
  | .openDb => open_db s
  | .cursor => cursorState s
  | .execute => cursorState s
  | .closeOp => closeDb s

def dbRun (ops : List DbOp) (s : DbState) : DbState :=
  ops.foldl (fun s op => dbStep op s) s

/-- Invariant tying self.conn to the live connections of one instance: the
live list is empty or exactly the handle held in conn, and every handle
stored so far is below the fresh-handle counter. -/
def ConnInv (s : DbState) : Prop :=
  match s.conn with
  | none => s.live = []
  | some c => (s.live = [] ∨ s.live = [c]) ∧ c < s.nextId

/-- Column catalog of the round-trip example: table a has columns col1 and
col2, table b has the single column col3. -/
def colCatalogEx : Str → List Str := fun t =>
  if t = chars "a" then [chars "col1", chars "col2"]
  else if t = chars "b" then [chars "col3"]
  else []

/-! Helper lemmas about the embedded operations. -/

theorem mem_tableLoop (catalog : List Str) (es : List Str) (x : Str) :
    x ∈ tableLoop catalog es ↔
      ∃ e ∈ es,
        (containsStar e = true ∧ x ∈ catalog ∧ ilike (percentPattern e) x = true)
          ∨ (e ∈ catalog ∧ x = e) := by
  induction es with
  | nil => simp [tableLoop]
  | cons e rest ih =>
      constructor
      · intro hx
        simp only [tableLoop, List.mem_append] at hx
        rcases hx with (hA | hB) | hC
        · by_cases h1 : containsStar e = true
          · rw [if_pos h1, match_tbl, List.mem_filter] at hA
            exact ⟨e, List.mem_cons_self e rest, Or.inl ⟨h1, hA.1, hA.2⟩⟩
          · rw [if_neg h1] at hA
            exact absurd hA (List.not_mem_nil x)
        · by_cases h2 : verify_tbl catalog e = true
          · rw [if_pos h2, List.mem_singleton] at hB
            exact ⟨e, List.mem_cons_self e rest, Or.inr ⟨of_decide_eq_true h2, hB⟩⟩
          · rw [if_neg h2] at hB
            exact absurd hB (List.not_mem_nil x)
        · obtain ⟨e2, he2, hc⟩ := ih.mp hC
          exact ⟨e2, List.mem_cons_of_mem e he2, hc⟩
      · rintro ⟨e2, he2, hc⟩
        simp only [tableLoop, List.mem_append]
        rcases List.mem_cons.mp he2 with rfl | he2
        · rcases hc with ⟨h1, hxc, him⟩ | ⟨hcat, rfl⟩
          · left; left
            rw [if_pos h1, match_tbl, List.mem_filter]
            exact ⟨hxc, him⟩
          · left; right
            simp [verify_tbl, hcat]
        · right
          exact ih.mpr ⟨e2, he2, hc⟩

theorem tableLoop_subset (catalog : List Str) (es : List Str) (x : Str)
    (h : x ∈ tableLoop catalog es) : x ∈ catalog := by
  obtain ⟨e, _, hcase⟩ := (mem_tableLoop catalog es x).mp h
  rcases hcase with ⟨_, hx, _⟩ | ⟨he, hx⟩
  · exact hx
  · exact hx ▸ he

theorem mem_table_list_some (catalog : List Str) (s : Str) (x : Str) :
    x ∈ table_list catalog (some s) ↔
      x ∈ tableLoop catalog (pySplitOn ',' (pyStrip s)) := by
  simp only [table_list]
  rw [(List.perm_insertionSort _ _).mem_iff, List.mem_dedup]

theorem mem_table_list_none (catalog : List Str) (x : Str) :
    x ∈ table_list catalog none ↔ x ∈ catalog := by
  simp only [table_list]
  rw [(List.perm_insertionSort _ _).mem_iff, List.mem_dedup,
    (List.perm_insertionSort _ _).mem_iff]

theorem table_list_sorted (catalog : List Str) (tbls : Option Str) :
    List.Sorted (· ≤ ·) (table_list catalog tbls) := by
  cases tbls <;>
    · simp only [table_list]
      exact List.sorted_insertionSort _ _

theorem table_list_nodup (catalog : List Str) (tbls : Option Str) :
    (table_list catalog tbls).Nodup := by
  cases tbls <;>
    · simp only [table_list]
      exact ((List.perm_insertionSort _ _).nodup_iff).mpr (List.nodup_dedup _)

theorem dropWhile_idem (p : Char → Bool) (l : Str) :
    List.dropWhile p (List.dropWhile p l) = List.dropWhile p l := by
  induction l with
  | nil => rfl
  | cons c l ih =>
      by_cases h : p c
      · simp [List.dropWhile_cons, h, ih]
      · simp [List.dropWhile_cons, h]

theorem dropWhile_head_not (p : Char → Bool) (l : Str) :
    ∀ x, (l.dropWhile p).head? = some x → p x = false := by
  induction l with
  | nil => intro x h; simp [List.dropWhile] at h
  | cons c l ih =>
      intro x h
      rw [List.dropWhile_cons] at h
      by_cases hc : p c = true
      · rw [if_pos hc] at h
        exact ih x h
      · rw [if_neg hc] at h
        rw [List.head?_cons, Option.some.injEq] at h
        subst h
        simpa using hc

theorem dropWhile_eq_self_of_head (p : Char → Bool) (l : Str)
    (h : ∀ x, l.head? = some x → p x = false) : l.dropWhile p = l := by
  cases l with
  | nil => rfl
  | cons c l => rw [List.dropWhile_cons, h c rfl]; simp

theorem getLast_dropWhile (p : Char → Bool) (l : Str)
    (h : l.dropWhile p ≠ []) :
    (l.dropWhile p).getLast? = l.getLast? := by
  obtain ⟨t, ht⟩ := List.dropWhile_suffix (l := l) p
  conv_rhs => rw [← ht]
  rw [List.getLast?_append]
  cases hg : (l.dropWhile p).getLast? with
  | some v => rfl
  | none => exact absurd (List.getLast?_eq_none_iff.mp hg) h

theorem pyStrip_idem (s : Str) : pyStrip (pyStrip s) = pyStrip s := by
  unfold pyStrip
  have hBdrop :
      ((((s.dropWhile isPySpace).reverse.dropWhile isPySpace).reverse).dropWhile
        isPySpace)
        = ((s.dropWhile isPySpace).reverse.dropWhile isPySpace).reverse := by
    apply dropWhile_eq_self_of_head
    intro x hx
    rw [List.head?_reverse] at hx
    have hBne : (s.dropWhile isPySpace).reverse.dropWhile isPySpace ≠ [] := by
      intro h0
      rw [h0] at hx
      simp at hx
    rw [getLast_dropWhile _ _ hBne, List.getLast?_reverse] at hx
    exact dropWhile_head_not _ _ x hx
  rw [hBdrop, List.reverse_reverse, dropWhile_idem]

theorem connInv_init (pwArg : Option Str) (prompted : Str) :
    ConnInv (Database_init pwArg prompted) := by
  simp [ConnInv, Database_init]

theorem connInv_open_db (s : DbState) (h : ConnInv s) : ConnInv (open_db s) := by
  unfold ConnInv at h ⊢
  unfold open_db
  cases hc : s.conn with
  | none =>
      rw [hc] at h
      cases hp : s.password with
      | none => simp [hc, hp, h]
      | some pw => simp [hc, hp, h]
  | some c =>
      rw [hc] at h
      obtain ⟨hl, hlt⟩ := h
      cases hp : s.password with
      | none => rcases hl with hl | hl <;> simp [hc, hp, hl, hlt]
      | some pw => rcases hl with hl | hl <;> simp [hc, hp, hl]

theorem connInv_cursor (s : DbState) (h : ConnInv s) : ConnInv (cursorState s) := by
  unfold cursorState
  cases hc : s.conn with
  | none => exact connInv_open_db s h
  | some c => exact h

theorem connInv_close (s : DbState) (h : ConnInv s) : ConnInv (closeDb s) := by
  unfold ConnInv at h ⊢
  unfold closeDb
  cases hc : s.conn with
  | none => rw [hc]; rw [hc] at h; exact h
  | some c =>
      rw [hc] at h
      rcases h.1 with hl | hl <;> simp [hc, hl]

theorem connInv_step (op : DbOp) (s : DbState) (h : ConnInv s) :
    ConnInv (dbStep op s) := by
  cases op with
  | openDb => exact connInv_open_db s h
  | cursor => exact connInv_cursor s h
  | execute => exact connInv_cursor s h
  | closeOp => exact connInv_close s h

theorem connInv_run (ops : List DbOp) (s : DbState) (h : ConnInv s) :
    ConnInv (dbRun ops s) := by
  induction ops generalizing s with
  | nil => exact h
  | cons op ops ih => exact ih (dbStep op s) (connInv_step op s h)

theorem connInv_live_length (s : DbState) (h : ConnInv s) : s.live.length ≤ 1 := by
  unfold ConnInv at h
  cases hc : s.conn with
  | none => rw [hc] at h; simp [h]
  | some c => rw [hc] at h; rcases h.1 with h1 | h1 <;> simp [h1]

theorem cursor_no_reopen (s : DbState) (h : s.conn.isSome = true) :
    cursorState s = s := by
  unfold cursorState
  cases hc : s.conn with
  | none => rw [hc] at h; simp at h
  | some c => rfl

theorem open_db_closes_prior (s : DbState) (h : ConnInv s) (c : Nat)
    (hc : s.conn = some c) : c ∉ (open_db s).live := by
  unfold ConnInv at h
  rw [hc] at h
  obtain ⟨hl, hlt⟩ := h
  unfold open_db
  rw [hc]
  cases hp : s.password with
  | none => rcases hl with hl | hl <;> simp [hp, hl]
  | some pw =>
      rcases hl with hl | hl <;> simp [hp, hl] <;> omega

/-! Claim theorems. -/

/-- Claim C1: in table_list, for every requested entry containing the star
wildcard, every schema table name case-insensitively matching the
percent-pattern built from the entry is in the result; independently, the
unmodified entry (star included), if itself an exact table name, is also
in the result, which holds it only once (no duplicates). -/
theorem C1_wildcard_entries (catalog : List Str) (s entry : Str)
    (hmem : entry ∈ pySplitOn ',' (pyStrip s))
    (hstar : containsStar entry = true) :
    (∀ t ∈ catalog, ilike (percentPattern entry) t = true →
        t ∈ table_list catalog (some s)) ∧
    (entry ∈ catalog → entry ∈ table_list catalog (some s)) ∧
    (table_list catalog (some s)).Nodup := by
  refine ⟨?_, ?_, table_list_nodup catalog (some s)⟩
  · intro t ht hmatch
    rw [mem_table_list_some, mem_tableLoop]
    exact ⟨entry, hmem, Or.inl ⟨hstar, ht, hmatch⟩⟩
  · intro hcat
    rw [mem_table_list_some, mem_tableLoop]
    exact ⟨entry, hmem, Or.inr ⟨hcat, rfl⟩⟩

theorem C1_wildcard_entries_witness :
    (∀ t ∈ [chars "x_a", chars "orders", chars "x_*"],
        ilike (percentPattern (chars "x_*")) t = true →
        t ∈ table_list [chars "x_a", chars "orders", chars "x_*"]
              (some (chars "x_*"))) ∧
    (chars "x_*" ∈ [chars "x_a", chars "orders", chars "x_*"] →
        chars "x_*" ∈ table_list [chars "x_a", chars "orders", chars "x_*"]
              (some (chars "x_*"))) ∧
    (table_list [chars "x_a", chars "orders", chars "x_*"]
        (some (chars "x_*"))).Nodup :=
  C1_wildcard_entries [chars "x_a", chars "orders", chars "x_*"]
    (chars "x_*") (chars "x_*") (by decide) (by decide)

/-- Claim C2 fails on the code: with schema tables a and orders and request
"a, orders", the comma-split entry for orders keeps its leading space
(only the whole request is stripped, at line 110), so the existing table
orders is not matched and the result is just [a]; per the claim the entry
would have been trimmed to orders and matched. -/
theorem C2_counterexample :
    pyStrip (chars " orders") = chars "orders" ∧
    chars "orders" ∈ [chars "a", chars "orders"] ∧
    table_list [chars "a", chars "orders"] (some (chars "a, orders"))
      = [chars "a"] := by
  decide

/-- Claim C2 amended: the requested string is trimmed once as a whole before
the comma split (the result depends only on the stripped request), and the
individual comma-split entries are matched verbatim, untrimmed: a
non-wildcard entry is in the result exactly when the raw entry, with any
surrounding whitespace it has, names an existing table. -/
theorem C2_amended_whole_trim (catalog : List Str) (s : Str) :
    table_list catalog (some (pyStrip s)) = table_list catalog (some s) ∧
    ∀ entry ∈ pySplitOn ',' (pyStrip s), containsStar entry = false →
      (entry ∈ table_list catalog (some s) ↔ entry ∈ catalog) := by
  constructor
  · simp only [table_list, pyStrip_idem]
  · intro entry hmem _
    constructor
    · intro h
      exact tableLoop_subset catalog _ entry
        ((mem_table_list_some catalog s entry).mp h)
    · intro hcat
      rw [mem_table_list_some, mem_tableLoop]
      exact ⟨entry, hmem, Or.inr ⟨hcat, rfl⟩⟩

theorem C2_amended_whole_trim_witness :
    table_list [chars "orders"] (some (pyStrip (chars " orders "))) =
      table_list [chars "orders"] (some (chars " orders ")) ∧
    (chars "orders" ∈ table_list [chars "orders"] (some (chars " orders ")) ↔
      chars "orders" ∈ [chars "orders"]) :=
  ⟨(C2_amended_whole_trim [chars "orders"] (chars " orders ")).1,
   (C2_amended_whole_trim [chars "orders"] (chars " orders ")).2
     (chars "orders") (by decide) (by decide)⟩

/-- Claim C3: with an exclusion string present, column_list returns the
catalog columns in source order (a sublist of the catalog order) keeping
exactly those whose name is not string-equal to a raw comma-split token of
the exclusion string; with no exclusion string all columns are returned;
on the spec example the result is [name, total]. -/
theorem C3_column_exclusion (cols : List Str) (x : Str) :
    List.Sublist (column_list (some x) cols) cols ∧
    (∀ c, c ∈ column_list (some x) cols ↔ c ∈ cols ∧ c ∉ pySplitOn ',' x) ∧
    column_list none cols = cols ∧
    column_list (initXcols (some (chars "id,created_at")))
        [chars "id", chars "name", chars "created_at", chars "total"] =
      [chars "name", chars "total"] := by
  refine ⟨List.filter_sublist cols, ?_, rfl, by decide⟩
  intro c
  simp [column_list, List.mem_filter]

/-- Claim C4 is violated by the code: Database.init reassigns self.password
to the prompt result unconditionally at line 46, so a caller-supplied
password is always discarded and replaced by the prompted value. -/
theorem C4_password_always_prompted :
    (∀ pwArg prompted, (Database_init pwArg prompted).password = some prompted) ∧
    (Database_init (some (chars "secret")) (chars "prompted")).password ≠
      some (chars "secret") :=
  ⟨fun _ _ => rfl, by decide⟩

/-- Claim C5: a requested entry with no wildcard that names no existing
table is silently dropped: it never appears in the result, and every
requested entry that does name an existing table still appears. -/
theorem C5_nonexistent_literal_dropped (catalog : List Str) (s entry : Str)
    (hmem : entry ∈ pySplitOn ',' (pyStrip s))
    (hnostar : containsStar entry = false)
    (hnotin : entry ∉ catalog) :
    entry ∉ table_list catalog (some s) ∧
    ∀ other ∈ pySplitOn ',' (pyStrip s), other ∈ catalog →
      other ∈ table_list catalog (some s) := by
  constructor
  · intro h
    exact hnotin (tableLoop_subset catalog _ entry
      ((mem_table_list_some catalog s entry).mp h))
  · intro other ho hoc
    rw [mem_table_list_some, mem_tableLoop]
    exact ⟨other, ho, Or.inr ⟨hoc, rfl⟩⟩

theorem C5_nonexistent_literal_dropped_witness :
    chars "zzz" ∉ table_list [chars "a"] (some (chars "zzz,a")) ∧
    ∀ other ∈ pySplitOn ',' (pyStrip (chars "zzz,a")), other ∈ [chars "a"] →
      other ∈ table_list [chars "a"] (some (chars "zzz,a")) :=
  C5_nonexistent_literal_dropped [chars "a"] (chars "zzz,a") (chars "zzz")
    (by decide) (by decide) (by decide)

/-- Claim C6: with no requested list, table_list returns exactly the
catalog's table names (a permutation of the duplicate-free catalog),
sorted ascending and duplicate-free. -/
theorem C6_all_tables (catalog : List Str) (hnd : catalog.Nodup) :
    (table_list catalog none).Perm catalog ∧
    List.Sorted (· ≤ ·) (table_list catalog none) ∧
    (table_list catalog none).Nodup := by
  refine ⟨?_, table_list_sorted catalog none, table_list_nodup catalog none⟩
  have h1 : (List.insertionSort (· ≤ ·) catalog).Nodup :=
    ((List.perm_insertionSort (· ≤ ·) catalog).nodup_iff).mpr hnd
  simp only [table_list]
  rw [h1.dedup]
  exact (List.perm_insertionSort _ _).trans (List.perm_insertionSort _ _)

theorem C6_all_tables_witness :
    (table_list [chars "b", chars "a"] none).Perm [chars "b", chars "a"] ∧
    List.Sorted (· ≤ ·) (table_list [chars "b", chars "a"] none) ∧
    (table_list [chars "b", chars "a"] none).Nodup :=
  C6_all_tables [chars "b", chars "a"] (by decide)

/-- Claim C7: for every catalog and every requested value (absent or any
string of wildcard and literal entries), the result of table_list is
sorted ascending and has no duplicates. -/
theorem C7_sorted_dedup (catalog : List Str) (tbls : Option Str) :
    List.Sorted (· ≤ ·) (table_list catalog tbls) ∧
    (table_list catalog tbls).Nodup :=
  ⟨table_list_sorted catalog tbls, table_list_nodup catalog tbls⟩

/-- Claim C8: from construction, after any sequence of open_db, cursor,
execute and close calls, at most one connection is live; cursor leaves the
state untouched when a connection handle is already held (it opens only on
first use); and open_db removes the previously held connection from the
live set (the handle it then stores is fresh). -/
theorem C8_single_live_connection (pwArg : Option Str) (prompted : Str)
    (ops : List DbOp) :
    ((dbRun ops (Database_init pwArg prompted)).live).length ≤ 1 ∧
    ((dbRun ops (Database_init pwArg prompted)).conn.isSome = true →
      cursorState (dbRun ops (Database_init pwArg prompted)) =
        dbRun ops (Database_init pwArg prompted)) ∧
    ∀ c, (dbRun ops (Database_init pwArg prompted)).conn = some c →
      c ∉ (open_db (dbRun ops (Database_init pwArg prompted))).live := by
  have hinv := connInv_run ops (Database_init pwArg prompted)
    (connInv_init pwArg prompted)
  exact ⟨connInv_live_length _ hinv,
    fun h => cursor_no_reopen _ h,
    fun c hc => open_db_closes_prior _ hinv c hc⟩

theorem C8_single_live_connection_witness :
    ((dbRun [DbOp.openDb] (Database_init none (chars "p"))).live).length ≤ 1 ∧
    cursorState (dbRun [DbOp.openDb] (Database_init none (chars "p"))) =
      dbRun [DbOp.openDb] (Database_init none (chars "p")) ∧
    (0 : Nat) ∉ (open_db (dbRun [DbOp.openDb] (Database_init none (chars "p")))).live :=
  ⟨(C8_single_live_connection none (chars "p") [DbOp.openDb]).1,
   (C8_single_live_connection none (chars "p") [DbOp.openDb]).2.1 (by decide),
   (C8_single_live_connection none (chars "p") [DbOp.openDb]).2.2 0 (by decide)⟩

/-- Claim C9: for resolved tables a and b with column lists [col1, col2]
and [col3], the produced document has exactly two sheets named a and b,
each with a single row whose text cells hold that table's column names in
order (cell counts 2 and 1). -/
theorem C9_document_roundtrip :
    mainDocument [chars "a", chars "b"] none none colCatalogEx =
      { sheets :=
          [{ name := chars "a",
             rows := [{ cells :=
               [{ valuetype := chars "string", stringvalue := chars "col1" },
                { valuetype := chars "string", stringvalue := chars "col2" }] }] },
           { name := chars "b",
             rows := [{ cells :=
               [{ valuetype := chars "string", stringvalue := chars "col3" }] }] }] } ∧
    (mainDocument [chars "a", chars "b"] none none colCatalogEx).sheets.length = 2 ∧
    ∀ sh ∈ (mainDocument [chars "a", chars "b"] none none colCatalogEx).sheets,
      sh.rows.length = 1 := by
  decide

/-- Claim C10: a present but empty or whitespace-only request resolves to
the empty list (no schema table has the empty name), not to the all-tables
fallback reserved for an absent request. -/
theorem C10_blank_request (catalog : List Str) (s : Str)
    (hblank : pyStrip s = [])
    (hnoempty : ([] : Str) ∉ catalog) :
    table_list catalog (some s) = [] := by
  have hloop : tableLoop catalog (pySplitOn ',' (pyStrip s)) = [] := by
    rw [hblank]
    show tableLoop catalog [[]] = []
    have h1 : containsStar ([] : Str) = false := rfl
    have h2 : verify_tbl catalog [] = false := by
      simp [verify_tbl, hnoempty]
    simp [tableLoop, h1, h2]
  simp only [table_list, hloop]
  rfl

theorem C10_blank_request_witness :
    table_list [chars "a"] (some (chars "  ")) = [] :=
  C10_blank_request [chars "a"] (chars "  ") (by decide) (by decide)
